import Mathlib

/-!
The per-connection request pipeline of wsng.

A shallow embedding of `src/wsng.c` and `src/web-time.c`.

* A C string is the list of its characters before the terminating NUL (`Str`).
* What a function does to the outside world is the list of `Event`s it produces, in
  program order: bytes written to the client stream, environment updates, filesystem
  calls, handler entries.  A function that also returns a value returns a pair.
* The filesystem, the clock, libc's time formatting and the content-type table
  (`varlib`, not part of the sources at hand) are the fields of `World`.
* `cmd`, `arg` and the scratch copy of `modify_argument` are `MAX_RQ_LEN` bytes.  A request
  line read by `readline` is shorter than that (`readline_fits`), its tokens are no longer
  than the line (`sscanf_ss_fits`) and the scratch copy never outgrows the argument
  (`modify_argument_fits`), so these buffers hold what is written to them and are not
  modelled.  The `LINELEN` buffers of `no_access` (truncating `snprintf`) and `do_dir`
  (unchecked `strcpy` and `strcat`) are: an overrun of the latter is the event
  `Event.undefined`.
-/

namespace Wsng

/-- C string: the characters before the terminating NUL. -/
abbrev Str := List Char

/-! ## Constants -/

def MAX_RQ_LEN : Nat := 4096
def LINELEN : Nat := 1024
def SERVER_NAME : Str := "WSNG".toList
def VERSION : Str := "1".toList
def CONTENT_DEFAULT : Str := "text/plain".toList

/-- errno value of a lookup on a name that does not exist. -/
def ENOENT : Nat := 2
/-- errno value of a lookup through a directory that may not be searched. -/
def EACCES : Nat := 13
/-- errno value of a lookup through a path component that is not a directory. -/
def ENOTDIR : Nat := 20

def S_IFMT : Nat := 0o170000
def S_IFDIR : Nat := 0o040000
def S_IRUSR : Nat := 0o400
def S_IXUSR : Nat := 0o100

/-- The `S_ISDIR` test of `sys/stat.h` on a mode word. -/
def S_ISDIR (m : Nat) : Bool := m &&& S_IFMT == S_IFDIR

/-! ## The outside world -/

/-- The fields of `struct stat` the server reads. -/
structure Stat where
  st_mode : Nat
  st_size : Int
  st_mtime : Int
  deriving DecidableEq, Repr

/-- The fields of `struct tm`. -/
structure Tm where
  tm_sec : Int
  tm_min : Int
  tm_hour : Int
  tm_mday : Int
  tm_mon : Int
  tm_year : Int
  tm_wday : Int
  tm_yday : Int
  tm_isdst : Int
  deriving DecidableEq, Repr

/-- Everything the request pipeline asks of its surroundings. -/
structure World where
  /-- Result of `time(0L)`. -/
  time : Int
  /-- Function `gmtime` of libc. -/
  gmtime : Int → Tm
  /-- Function `localtime` of libc. -/
  localtime : Int → Tm
  /-- Function `strftime` of libc: buffer size, format, broken-down time. -/
  strftime : Nat → Str → Tm → Str
  /-- Result of `stat(path, &info)`: the entry, or the errno of the failure. -/
  stat : Str → Except Nat Stat
  /-- Result of `lstat(path, &info)`. -/
  lstat : Str → Except Nat Stat
  /-- Result of `fopen(path, "r")`: the bytes of the file, or `none` for NULL. -/
  fopen : Str → Option Str
  /-- Result of `opendir(path)`: the names `readdir` then yields, or `none` for NULL. -/
  opendir : Str → Option (List Str)
  /-- Function `VLlookup` of varlib: the value stored for a name (a `char *`, so
  possibly NULL). -/
  VLlookup : Str → Option Str
  /-- Whether `execl(prog, prog, NULL)` succeeds, replacing the process image. -/
  execl : Str → Bool

/-- The functions of `wsng.c` that produce a response body. -/
inductive Handler
  | do_404
  | do_403
  | do_dir
  | do_ls
  | do_exec
  | do_cat
  deriving DecidableEq, Repr

/-- Observable steps of the program. -/
inductive Event
  /-- Bytes sent to the client stream by one `fprintf` or one copy loop. -/
  | write (s : Str)
  /-- Text sent to the diagnostic stream. -/
  | diag (s : Str)
  /-- Call `setenv(name, value, 1)`. -/
  | setenv (name value : Str)
  /-- Call `stat(path, &info)`. -/
  | stat (path : Str)
  /-- Call `lstat(path, &info)`. -/
  | lstat (path : Str)
  /-- Call `fopen(path, "r")`. -/
  | fopen (path : Str)
  /-- Call `opendir(path)`. -/
  | opendir (path : Str)
  /-- Entry into a handler with its first argument. -/
  | call (h : Handler) (arg : Str)
  /-- Call `fflush` on the client stream. -/
  | fflush
  /-- Call `dup2(fd, newfd)` with the client descriptor. -/
  | dup2 (newfd : Nat)
  /-- Call `execl(prog, prog, NULL)`. -/
  | execl (prog : Str)
  /-- Call `perror(s)`. -/
  | perror (s : Str)
  /-- A write past the end of a fixed buffer: nothing is known from here on. -/
  | undefined
  deriving DecidableEq, Repr

/-- The bytes a trace sends to the client, concatenated. -/
def output : List Event → Str
  | [] => []
  | Event.write s :: t => s ++ output t
  | _ :: t => output t

/-- Whether an event is the entry into a handler. -/
def Event.isCall : Event → Bool
  | Event.call _ _ => true
  | _ => false

/-! ## `web-time.c` -/

/-- Function `rfc822_time` of `web-time.c`. -/
def rfc822_time (w : World) (thetime : Int) : Str :=
  w.strftime 36 "%a, %d %b %Y %H:%M:%S GMT".toList (w.gmtime thetime)

/-- Function `table_time` of `web-time.c`. -/
def table_time (w : World) (thetime : Int) : Str :=
  w.strftime 36 "%d-%b-%Y %H:%M".toList (w.localtime thetime)

/-! ## libc string functions -/

/-- One call of `strtok` with the single delimiter `delim`, on the not yet consumed
text `s`: the token and the text left for the next call, or `none` for NULL. -/
def strtok (s : Str) (delim : Char) : Option (Str × Str) :=
  let start := s.dropWhile (· == delim)
  if start = [] then none
  else some (start.takeWhile (· != delim), (start.dropWhile (· != delim)).drop 1)

/-- Function `strrchr`: the offset of the last occurrence of `c` in `s`, or `none`
for NULL. -/
def strrchr : Str → Char → Option Nat
  | [], _ => none
  | x :: xs, c =>
    match strrchr xs c with
    | some i => some (i + 1)
    | none => if x = c then some 0 else none

/-- The `isspace` test in the C locale. -/
def isspace (c : Char) : Bool :=
  c == ' ' || c == '\t' || c == '\n' || c == '\x0b' || c == '\x0c' || c == '\r'

/-- One `%s` conversion of `sscanf`: skip white space, then take the characters up
to the next white space.  The converted text and the input left, or `none` when the
input ends before any character is converted. -/
def scan_s (s : Str) : Option (Str × Str) :=
  let start := s.dropWhile isspace
  if start = [] then none
  else some (start.takeWhile (fun c => !isspace c), start.dropWhile (fun c => !isspace c))

/-- Call `sscanf(rq, "%s%s", cmd, arg)`: the return value (`-1` is EOF) and the two
buffers, which keep `[]` here where C leaves them unset. -/
def sscanf_ss (rq : Str) : Int × Str × Str :=
  match scan_s rq with
  | none => (-1, [], [])
  | some (cmd, rest) =>
    match scan_s rest with
    | none => (1, cmd, [])
    | some (arg, _) => (2, cmd, arg)

/-- Conversion `%d` of `printf`. -/
def fmt_d (n : Int) : Str :=
  if n < 0 then '-' :: Nat.toDigits 10 n.natAbs else Nat.toDigits 10 n.toNat

/-- The cast `(int)` of a wider integer (32-bit two's complement). -/
def to_int (n : Int) : Int := (n + 2 ^ 31) % 2 ^ 32 - 2 ^ 31

/-! ## `wsng.c`: path handling -/

/-- The `while` loop of `modify_argument`: `rest` is the text `strtok` has not yet
consumed, `copy` the scratch buffer.  The loop runs once per token, so `rest.length + 1`
rounds always suffice (`modify_argument_loop_fuel`). -/
def modify_argument_loop : Nat → Str → Str → Str
  | 0, _, copy => copy
  | fuel + 1, rest, copy =>
    match strtok rest '/' with
    | none => copy
    | some (nexttoken, rest') =>
      if nexttoken ≠ "..".toList then
        modify_argument_loop fuel rest'
          (if copy ≠ [] then copy ++ "/".toList ++ nexttoken else copy ++ nexttoken)
      else
        modify_argument_loop fuel rest' copy

/-- Function `modify_argument` of `wsng.c`, the path sanitizer.  Its second parameter
`len` only sizes the scratch copy, which never outgrows `arg` (`modify_argument_fits`). -/
def modify_argument (arg : Str) : Str :=
  let copy := modify_argument_loop (arg.length + 1) arg []
  if copy = [] then ".".toList else copy

/-- Function `parse_query` of `wsng.c`: the line cut at its last question mark, and
the `setenv` of what follows it. -/
def parse_query (line : Str) : Str × List Event :=
  match strrchr line '?' with
  | some i => (line.take i, [Event.setenv "QUERY_STRING".toList (line.drop (i + 1))])
  | none => (line, [])

/-- Function `file_type` of `wsng.c`: the text after the last dot. -/
def file_type (f : Str) : Str :=
  match strrchr f '.' with
  | some i => f.drop (i + 1)
  | none => []

/-- Function `ends_in_cgi` of `wsng.c`. -/
def ends_in_cgi (f : Str) : Bool := file_type f == "cgi".toList

/-! ## `wsng.c`: reading the request -/

/-- Function `readline` of `wsng.c` on the unread input `input`: the line stored in
a buffer of `len` bytes (`none` for NULL) and the input left unread. -/
def readline (len : Nat) (input : Str) : Option Str × Str :=
  let stored := (input.takeWhile (· != '\n')).take (len - 2)
  match input.dropWhile (· != '\n') with
  | [] => (if stored = [] then none else some stored, [])
  | _ :: unread => (some (stored ++ ['\n']), unread)

/-! ## `wsng.c`: replies -/

/-- Function `header` of `wsng.c`; `content_type` is `none` for NULL. -/
def header (w : World) (code : Int) (msg : Str) (content_type : Option Str) : List Event :=
  [Event.write ("HTTP/1.0 ".toList ++ fmt_d code ++ " ".toList ++ msg ++ "\r\n".toList),
   Event.write ("Date: ".toList ++ rfc822_time w w.time ++ "\r\n".toList),
   Event.write ("Server: ".toList ++ SERVER_NAME ++ "/".toList ++ VERSION ++ "\r\n".toList)] ++
  match content_type with
  | none => []
  | some t =>
    if t = [] then
      [Event.write ("Content-Type: ".toList ++ CONTENT_DEFAULT ++ "\r\n".toList)]
    else
      [Event.write ("Content-Type: ".toList ++ t ++ "\r\n".toList)]

/-- Function `bad_request` of `wsng.c`. -/
def bad_request (w : World) : List Event :=
  header w 400 "Bad Request".toList (some "text/plain".toList) ++
  [Event.write "\r\nI cannot understand your request\r\n".toList]

/-- Function `cannot_do` of `wsng.c`. -/
def cannot_do (w : World) : List Event :=
  header w 501 "Not Implemented".toList (some "text/plain".toList) ++
  [Event.write "\r\n".toList,
   Event.write "That command is not yet implemented\r\n".toList]

/-- Function `do_404` of `wsng.c`. -/
def do_404 (w : World) (item : Str) : List Event :=
  Event.call Handler.do_404 item ::
  header w 404 "Not Found".toList (some "text/plain".toList) ++
  [Event.write "\r\n".toList,
   Event.write ("The item you requested: ".toList ++ item ++ "\r\nis not found\r\n".toList)]

/-- Function `do_403` of `wsng.c`. -/
def do_403 (w : World) (item : Str) : List Event :=
  Event.call Handler.do_403 item ::
  header w 403 "Forbidden".toList (some "text/plain".toList) ++
  [Event.write "\r\n".toList,
   Event.write ("You do not have permission to access ".toList ++ item ++
     " on this server\r\n".toList)]

/-! ## `wsng.c`: filesystem tests -/

/-- Function `isadir` of `wsng.c`: its value and its one `stat` call. -/
def isadir (w : World) (f : Str) : Bool × List Event :=
  (match w.stat f with
   | Except.ok info => S_ISDIR info.st_mode
   | Except.error _ => false,
   [Event.stat f])

/-- Function `not_exist` of `wsng.c`: its value and its one `stat` call. -/
def not_exist (w : World) (f : Str) : Bool × List Event :=
  (match w.stat f with
   | Except.ok _ => false
   | Except.error errno => errno == ENOENT,
   [Event.stat f])

/-- Function `no_access` of `wsng.c`.  The probed path is `f` with a slash appended,
cut by `snprintf` to what fits in `LINELEN` bytes (the `strcpy` before it is
overwritten). -/
def no_access (w : World) (f : Str) : Bool × List Event :=
  let path := (f ++ "/".toList).take (LINELEN - 1)
  (match w.stat path with
   | Except.ok info => (S_IRUSR &&& info.st_mode) == 0 || (S_IXUSR &&& info.st_mode) == 0
   | Except.error _ => false,
   [Event.stat path])

/-! ## `wsng.c`: content handlers -/

/-- Function `do_cat` of `wsng.c`. -/
def do_cat (w : World) (f : Str) : List Event :=
  let extension := file_type f
  let content := w.VLlookup extension
  Event.call Handler.do_cat f :: Event.fopen f ::
  match w.fopen f with
  | some bytes =>
    header w 200 "OK".toList content ++ [Event.write "\r\n".toList, Event.write bytes]
  | none => []

/-- Function `do_exec` of `wsng.c`.  When `execl` succeeds the process image is
replaced and this program does nothing more. -/
def do_exec (w : World) (prog : Str) : List Event :=
  Event.call Handler.do_exec prog ::
  header w 200 "OK".toList none ++
  [Event.fflush, Event.dup2 1, Event.dup2 2, Event.execl prog] ++
  if w.execl prog then [] else [Event.perror prog]

/-- Function `construct_path` of `wsng.c`; `none` when it reads `parent[-1]`, the
byte before an empty `parent`. -/
def construct_path (parent child : Str) : Option Str :=
  if parent = child then some parent
  else if parent = [] then none
  else if parent.getLast? = some '/' || child.head? = some '/' then some (parent ++ child)
  else some (parent ++ "/".toList ++ child)

/-- Function `table_row` of `wsng.c`, for the entry named `d_name`. -/
def table_row (w : World) (d_name : Str) (info : Stat) : List Event :=
  [Event.write "<tr><td>".toList,
   (if S_ISDIR info.st_mode then
      Event.write ("<a href='".toList ++ d_name ++ "/'>".toList ++ d_name ++ "</a>".toList)
    else
      Event.write ("<a href='".toList ++ d_name ++ "'>".toList ++ d_name ++ "</a>".toList)),
   Event.write "</td>".toList,
   Event.write "<td>".toList,
   Event.write (table_time w info.st_mtime),
   Event.write "</td>".toList,
   Event.write "<td>".toList,
   Event.write (fmt_d (to_int info.st_size)),
   Event.write "</td></tr>".toList]

/-- Function `table_header` of `wsng.c`. -/
def table_header : List Event :=
  [Event.write "<table>\n<tbody>\n<tr>".toList,
   Event.write "<th>Name</th>".toList,
   Event.write "<th>Last Modified</th>".toList,
   Event.write "<th>Size</th>".toList,
   Event.write "</tr>\n".toList]

/-- Function `table_close` of `wsng.c`. -/
def table_close : List Event :=
  [Event.write "</tbody></table>\n".toList]

/-- The `while` loop of `print_rows` over the names `readdir` yields. -/
def print_rows_loop (w : World) (dir : Str) : List Str → List Event
  | [] => []
  | d_name :: more =>
    match construct_path dir d_name with
    | none => [Event.undefined]
    | some path =>
      Event.lstat path ::
      match w.lstat path with
      | Except.error _ =>
        Event.diag ("error with ".toList ++ path ++ "\n".toList) :: print_rows_loop w dir more
      | Except.ok info => table_row w d_name info ++ print_rows_loop w dir more

/-- Function `print_rows` of `wsng.c`. -/
def print_rows (w : World) (dir : Str) : List Event :=
  Event.opendir dir ::
  match w.opendir dir with
  | none => [Event.diag "Couldn't open directory\n".toList]
  | some names => print_rows_loop w dir names

/-- Function `do_ls` of `wsng.c`. -/
def do_ls (w : World) (dir : Str) : List Event :=
  Event.call Handler.do_ls dir ::
  header w 200 "OK".toList (some "text/html".toList) ++
  [Event.write "\r\n".toList] ++ table_header ++ print_rows w dir ++ table_close

/-- Function `do_dir` of `wsng.c`.  The buffers `html` and `cgi` hold `LINELEN` bytes;
`dir` followed by `/index.html` and the NUL must fit. -/
def do_dir (w : World) (dir : Str) : List Event :=
  Event.call Handler.do_dir dir ::
  if LINELEN ≤ dir.length + "/index.html".toList.length then [Event.undefined]
  else
    let html := dir ++ "/index.html".toList
    let cgi := dir ++ "/index.cgi".toList
    Event.stat html ::
    match w.stat html with
    | Except.ok _ => do_cat w html
    | Except.error _ =>
      Event.stat cgi ::
      match w.stat cgi with
      | Except.ok _ => do_exec w cgi
      | Except.error _ => do_ls w dir

/-! ## `wsng.c`: the dispatcher -/

/-- Function `process_rq` of `wsng.c`. -/
def process_rq (w : World) (rq : Str) : List Event :=
  let (n, cmd, arg) := sscanf_ss rq
  if n ≠ 2 then bad_request w
  else
    let (item, t_query) := parse_query (modify_argument arg)
    let request_method :=
      if cmd = "GET".toList then
        some [Event.setenv "REQUEST_METHOD".toList "GET".toList]
      else if cmd = "HEAD".toList then
        some [Event.setenv "REQUEST_METHOD".toList "HEAD".toList]
      else none
    match request_method with
    | none => t_query ++ cannot_do w
    | some t_method =>
      t_query ++ t_method ++
      let (missing, t1) := not_exist w item
      t1 ++
      if missing then do_404 w item
      else
        let (denied, t2) := no_access w item
        t2 ++
        if denied then do_403 w item
        else
          let (dir, t3) := isadir w item
          t3 ++
          if dir then do_dir w item
          else if ends_in_cgi item then do_exec w item
          else do_cat w item

/-! ## The specification's vocabulary -/

/-- The non-empty pieces of `s` between the characters that satisfy `p`. -/
def tokens_of (p : Char → Bool) (s : Str) : List Str := (s.splitOnP p).filter (· ≠ [])

/-- The white-space separated tokens of a request line. -/
def words (s : Str) : List Str := tokens_of isspace s

/-- The path segments of a string: what stands between its slashes. -/
def segments (p : Str) : List Str := p.splitOn '/'

/-- The sanitizer in the specification's words: split on the slash, drop the empty
segments and those equal to `..`, join what remains with single slashes, and give `.`
when nothing remains. -/
def sanitize_spec (raw : Str) : Str :=
  let kept := (segments raw).filter (fun seg => seg ≠ [] ∧ seg ≠ "..".toList)
  if kept = [] then ".".toList else "/".toList.intercalate kept

/-- The filesystem entry kinds of the specification. -/
inductive FsEntryKind
  | Missing
  | Forbidden
  | Directory
  | CgiExecutable
  | RegularFile
  deriving DecidableEq, Repr

/-- The classification policy in its priority order, each class decided by the
source's own test. -/
def classify (w : World) (path : Str) : FsEntryKind :=
  if (not_exist w path).1 then FsEntryKind.Missing
  else if (no_access w path).1 then FsEntryKind.Forbidden
  else if (isadir w path).1 then FsEntryKind.Directory
  else if ends_in_cgi path then FsEntryKind.CgiExecutable
  else FsEntryKind.RegularFile

/-- The content handler the specification routes each kind to. -/
def route : FsEntryKind → Handler
  | FsEntryKind.Missing => Handler.do_404
  | FsEntryKind.Forbidden => Handler.do_403
  | FsEntryKind.Directory => Handler.do_dir
  | FsEntryKind.CgiExecutable => Handler.do_exec
  | FsEntryKind.RegularFile => Handler.do_cat

/-- The trace of a handler run on its argument. -/
def Handler.run (w : World) : Handler → Str → List Event
  | Handler.do_404, a => Wsng.do_404 w a
  | Handler.do_403, a => Wsng.do_403 w a
  | Handler.do_dir, a => Wsng.do_dir w a
  | Handler.do_ls, a => Wsng.do_ls w a
  | Handler.do_exec, a => Wsng.do_exec w a
  | Handler.do_cat, a => Wsng.do_cat w a

/-- The path the dispatcher hands to the filesystem tests for a request target. -/
def dispatched_path (target : Str) : Str := (parse_query (modify_argument target)).1

/-! ## Auxiliary definitions for the proofs -/

/-- One round of the loop of `modify_argument` on the scratch buffer `copy`. -/
def keep_token (copy nexttoken : Str) : Str :=
  if nexttoken ≠ "..".toList then
    (if copy ≠ [] then copy ++ "/".toList ++ nexttoken else copy ++ nexttoken)
  else copy

/-- The segments the sanitizer keeps: the tokens between slashes other than `..`. -/
def kept_segments (raw : Str) : List Str :=
  (tokens_of (· == '/') raw).filter (· ≠ "..".toList)

/-! ## Sample worlds -/

/-- A fixed date line for the sample worlds. -/
def sample_date : Str := "Thu, 01 Jan 1970 00:00:00 GMT".toList

/-- A server root holding the directory `pub`, the file `pub/a.txt` and the program
`run.cgi`; the root sits in a parent directory that can be read. -/
def sample_world : World where
  time := 0
  gmtime := fun _ => ⟨0, 0, 0, 1, 0, 70, 4, 0, 0⟩
  localtime := fun _ => ⟨0, 0, 0, 1, 0, 70, 4, 0, 0⟩
  strftime := fun _ fmt _ =>
    if fmt = "%a, %d %b %Y %H:%M:%S GMT".toList then sample_date else "01-Jan-1970 00:00".toList
  stat := fun p =>
    if p = ".".toList ∨ p = "./".toList ∨ p = "..".toList ∨ p = "../".toList ∨
        p = "pub".toList ∨ p = "pub/".toList then
      Except.ok ⟨0o040755, 4096, 0⟩
    else if p = "pub/a.txt".toList then Except.ok ⟨0o100644, 5, 0⟩
    else if p = "run.cgi".toList then Except.ok ⟨0o100755, 20, 0⟩
    else if p = "pub/a.txt/".toList ∨ p = "run.cgi/".toList then Except.error ENOTDIR
    else Except.error ENOENT
  lstat := fun p =>
    if p = "..".toList ∨ p = "../.".toList ∨ p = "../www".toList then
      Except.ok ⟨0o040755, 4096, 0⟩
    else if p = "../passwd".toList then Except.ok ⟨0o100600, 7, 0⟩
    else Except.error ENOENT
  fopen := fun p => if p = "pub/a.txt".toList then some "hello".toList else none
  opendir := fun p =>
    if p = "..".toList then some [".".toList, "..".toList, "www".toList, "passwd".toList]
    else none
  VLlookup := fun ext => if ext = "txt".toList then some "text/plain".toList else some []
  execl := fun _ => true

/-- A world in which every lookup is refused for lack of search permission. -/
def locked_world : World :=
  { sample_world with stat := fun _ => Except.error EACCES }

/-- The sample world with both index files present in the directory `pub`. -/
def index_world : World :=
  { sample_world with
    stat := fun p =>
      if p = "pub/index.html".toList then Except.ok ⟨0o100644, 4, 0⟩
      else if p = "pub/index.cgi".toList then Except.ok ⟨0o100755, 9, 0⟩
      else sample_world.stat p
    fopen := fun p =>
      if p = "pub/index.html".toList then some "home".toList else sample_world.fopen p
    VLlookup := fun ext =>
      if ext = "html".toList then some "text/html".toList else sample_world.VLlookup ext }

/-- A name of the server root that is 1013 characters long: `.` written 507 times with
slashes between. -/
def deep_dir : Str := "/".toList.intercalate (List.replicate 507 ".".toList)

/-- The sample world, in which every name made of `.` segments is the server root. -/
def deep_world : World :=
  { sample_world with
    stat := fun p =>
      if p = deep_dir ∨ p = deep_dir ++ "/".toList then Except.ok ⟨0o040755, 4096, 0⟩
      else sample_world.stat p }

/-! ## Tokens -/

theorem splitOnP_head_tail (p : Char → Bool) (s : Str) :
    ∃ t, s.splitOnP p = s.takeWhile (fun c => !p c) :: t ∧
      t.filter (· ≠ []) = tokens_of p (s.dropWhile (fun c => !p c)) := by
  induction s with
  | nil => exact ⟨[], by simp, by simp [tokens_of]⟩
  | cons x xs ih =>
    obtain ⟨t, ht, hf⟩ := ih
    by_cases hx : p x = true
    · refine ⟨xs.splitOnP p, by simp [hx], ?_⟩
      simp [tokens_of, hx]
    · refine ⟨t, by simp [hx, ht], ?_⟩
      simpa [hx] using hf

theorem tokens_of_nil (p : Char → Bool) : tokens_of p [] = [] := by
  simp [tokens_of]

theorem tokens_of_cons_sep (p : Char → Bool) (x : Char) (xs : Str) (hx : p x = true) :
    tokens_of p (x :: xs) = tokens_of p xs := by
  simp [tokens_of, hx]

theorem tokens_of_cons_start (p : Char → Bool) (x : Char) (xs : Str) (hx : p x = false) :
    tokens_of p (x :: xs) =
      (x :: xs).takeWhile (fun c => !p c) :: tokens_of p ((x :: xs).dropWhile (fun c => !p c)) := by
  obtain ⟨t, ht, hf⟩ := splitOnP_head_tail p (x :: xs)
  rw [← hf]
  simp only [tokens_of, ht]
  simp [hx]

theorem tokens_of_dropWhile (p : Char → Bool) (s : Str) :
    tokens_of p (s.dropWhile p) = tokens_of p s := by
  induction s with
  | nil => rfl
  | cons x xs ih =>
    by_cases hx : p x = true
    · rw [List.dropWhile_cons_of_pos hx, ih, tokens_of_cons_sep p x xs hx]
    · rw [List.dropWhile_cons_of_neg hx]

theorem tokens_of_drop_one (p : Char → Bool) (s : Str) :
    tokens_of p ((s.dropWhile (fun c => !p c)).drop 1) =
      tokens_of p (s.dropWhile (fun c => !p c)) := by
  induction s with
  | nil => rfl
  | cons x xs ih =>
    by_cases hx : p x = true
    · have h : (x :: xs).dropWhile (fun c => !p c) = x :: xs := by simp [hx]
      rw [h, List.drop_one, List.tail_cons, tokens_of_cons_sep p x xs hx]
    · have h : (x :: xs).dropWhile (fun c => !p c) = xs.dropWhile (fun c => !p c) := by
        simp [hx]
      rw [h, ih]

theorem length_dropWhile_le (q : Char → Bool) (s : Str) : (s.dropWhile q).length ≤ s.length :=
  (List.dropWhile_sublist q).length_le

/-- What one scan from the first character that is not a separator yields: the
first token, and the same later tokens whether or not the separator that ends it is
dropped. -/
theorem tokens_of_scan (p : Char → Bool) (s : Str) (h : s.dropWhile p ≠ []) :
    tokens_of p s =
      (s.dropWhile p).takeWhile (fun c => !p c) ::
        tokens_of p ((s.dropWhile p).dropWhile (fun c => !p c)) ∧
    ((s.dropWhile p).dropWhile (fun c => !p c)).length < s.length := by
  have hlen := length_dropWhile_le p s
  cases hs : s.dropWhile p with
  | nil => exact absurd hs h
  | cons x xs =>
    have hx : p x = false := by
      have := List.head_dropWhile_not p s h
      simpa [hs] using this
    refine ⟨?_, ?_⟩
    · rw [← tokens_of_dropWhile p s, hs]
      exact tokens_of_cons_start p x xs hx
    · have h1 : (x :: xs).dropWhile (fun c => !p c) = xs.dropWhile (fun c => !p c) := by
        simp [hx]
      have h2 := length_dropWhile_le (fun c => !p c) xs
      rw [hs] at hlen
      rw [h1]
      simp only [List.length_cons] at hlen
      omega

theorem tokens_of_eq_nil (p : Char → Bool) (s : Str) (h : s.dropWhile p = []) :
    tokens_of p s = [] := by
  rw [← tokens_of_dropWhile p s, h]
  rfl

theorem strtok_none (s : Str) (d : Char) (h : strtok s d = none) :
    tokens_of (· == d) s = [] := by
  unfold strtok at h
  by_cases hs : s.dropWhile (· == d) = []
  · exact tokens_of_eq_nil _ s hs
  · simp [hs] at h

theorem strtok_some (s : Str) (d : Char) (tok rest : Str) (h : strtok s d = some (tok, rest)) :
    tokens_of (· == d) s = tok :: tokens_of (· == d) rest ∧ rest.length < s.length := by
  unfold strtok at h
  by_cases hs : s.dropWhile (· == d) = []
  · simp [hs] at h
  · obtain ⟨h1, h2⟩ := tokens_of_scan (· == d) s hs
    simp only [hs, if_false, Option.some.injEq, Prod.mk.injEq] at h
    obtain ⟨ht, hr⟩ := h
    have e : (fun c : Char => !(c == d)) = (fun c => c != d) := rfl
    rw [e] at h1 h2
    refine ⟨?_, ?_⟩
    · rw [h1, ht, ← hr]
      have := tokens_of_drop_one (· == d) (s.dropWhile (· == d))
      rw [e] at this
      rw [this]
    · rw [← hr, List.length_drop]
      omega

theorem scan_s_none (s : Str) (h : scan_s s = none) : words s = [] := by
  unfold scan_s at h
  by_cases hs : s.dropWhile isspace = []
  · exact tokens_of_eq_nil _ s hs
  · simp [hs] at h

theorem scan_s_some (s tok rest : Str) (h : scan_s s = some (tok, rest)) :
    words s = tok :: words rest := by
  unfold scan_s at h
  by_cases hs : s.dropWhile isspace = []
  · simp [hs] at h
  · obtain ⟨h1, _⟩ := tokens_of_scan isspace s hs
    simp only [hs, if_false, Option.some.injEq, Prod.mk.injEq] at h
    obtain ⟨ht, hr⟩ := h
    rw [words, h1, ht, hr]
    rfl

/-- What `sscanf` with two `%s` conversions returns, read off the tokens of the line. -/
theorem sscanf_ss_words (rq : Str) :
    sscanf_ss rq =
      match words rq with
      | [] => (-1, [], [])
      | [cmd] => (1, cmd, [])
      | cmd :: arg :: _ => (2, cmd, arg) := by
  unfold sscanf_ss
  cases h1 : scan_s rq with
  | none => simp [scan_s_none rq h1]
  | some r1 =>
    obtain ⟨cmd, rest⟩ := r1
    rw [scan_s_some rq cmd rest h1]
    cases h2 : scan_s rest with
    | none => simp [h2, scan_s_none rest h2]
    | some r2 =>
      obtain ⟨arg, rest2⟩ := r2
      simp [h2, scan_s_some rest arg rest2 h2]

/-! ## The sanitizer -/

theorem dotdot_toList : "..".toList = ['.', '.'] := rfl

theorem slash_toList : "/".toList = ['/'] := rfl

theorem modify_argument_loop_eq_foldl (fuel : Nat) (rest copy : Str) (h : rest.length < fuel) :
    modify_argument_loop fuel rest copy = (tokens_of (· == '/') rest).foldl keep_token copy := by
  induction fuel generalizing rest copy with
  | zero => omega
  | succ n ih =>
    unfold modify_argument_loop
    cases hs : strtok rest '/' with
    | none => simp [strtok_none rest '/' hs]
    | some r =>
      obtain ⟨tok, rest'⟩ := r
      obtain ⟨ht, hl⟩ := strtok_some rest '/' tok rest' hs
      have hlt : rest'.length < n := by omega
      rw [ht, List.foldl_cons]
      by_cases hdd : tok = ['.', '.']
      · simp [hdd, keep_token, ih _ _ hlt]
      · simp [hdd, keep_token, ih _ _ hlt]

/-- The loop of `modify_argument` ends by itself: once the rounds allowed exceed the
length of the text, their number does not matter. -/
theorem modify_argument_loop_fuel (n m : Nat) (rest copy : Str)
    (hn : rest.length < n) (hm : rest.length < m) :
    modify_argument_loop n rest copy = modify_argument_loop m rest copy := by
  rw [modify_argument_loop_eq_foldl n rest copy hn, modify_argument_loop_eq_foldl m rest copy hm]

theorem intercalate_cons (sep a : Str) (K : List Str) :
    sep.intercalate (a :: K) = a ++ (K.map (sep ++ ·)).flatten := by
  induction K generalizing a with
  | nil => simp [List.intercalate]
  | cons b K ih =>
    have h := ih b
    simp only [List.intercalate] at h ⊢
    rw [List.intersperse_cons_cons, List.flatten_cons, List.flatten_cons, h]
    simp

theorem foldl_keep_token_ne_nil (toks : List Str) (copy : Str) (hc : copy ≠ []) :
    toks.foldl keep_token copy =
      copy ++ ((toks.filter (· ≠ "..".toList)).map ("/".toList ++ ·)).flatten := by
  induction toks generalizing copy with
  | nil => simp
  | cons t ts ih =>
    rw [List.foldl_cons]
    by_cases hdd : t = ['.', '.']
    · have hk : keep_token copy t = copy := by simp [keep_token, hdd]
      rw [hk, ih copy hc]
      simp [hdd]
    · have hk : keep_token copy t = copy ++ "/".toList ++ t := by simp [keep_token, hdd, hc]
      have hne : copy ++ "/".toList ++ t ≠ [] := by simp [hc]
      rw [hk, ih _ hne]
      simp [hdd]

theorem foldl_keep_token_nil (toks : List Str) (hne : ∀ t ∈ toks, t ≠ []) :
    toks.foldl keep_token [] = "/".toList.intercalate (toks.filter (· ≠ "..".toList)) := by
  induction toks with
  | nil => simp [List.intercalate]
  | cons t ts ih =>
    rw [List.foldl_cons]
    by_cases hdd : t = ['.', '.']
    · have hk : keep_token [] t = [] := by simp [keep_token, hdd]
      rw [hk, ih (fun u hu => hne u (List.mem_cons_of_mem _ hu))]
      simp [hdd]
    · have hk : keep_token [] t = t := by simp [keep_token, hdd]
      have ht : t ≠ [] := hne t (List.mem_cons_self _ _)
      rw [hk, foldl_keep_token_ne_nil ts t ht]
      have hf : (t :: ts).filter (· ≠ "..".toList) = t :: ts.filter (· ≠ "..".toList) := by
        simp [hdd]
      rw [hf, intercalate_cons]

theorem tokens_of_ne_nil (p : Char → Bool) (s : Str) : ∀ t ∈ tokens_of p s, t ≠ [] := by
  intro t ht
  simp only [tokens_of, List.mem_filter] at ht
  simpa using ht.2

theorem kept_segments_ne_nil (raw : Str) : ∀ t ∈ kept_segments raw, t ≠ [] := by
  intro t ht
  exact tokens_of_ne_nil _ raw t (List.mem_of_mem_filter ht)

theorem kept_segments_ne_dotdot (raw : Str) : ∀ t ∈ kept_segments raw, t ≠ "..".toList := by
  intro t ht
  simp only [kept_segments, List.mem_filter] at ht
  simpa using ht.2

theorem modify_argument_loop_eq (arg : Str) :
    modify_argument_loop (arg.length + 1) arg [] = "/".toList.intercalate (kept_segments arg) := by
  rw [modify_argument_loop_eq_foldl _ arg [] (Nat.lt_succ_self _),
    foldl_keep_token_nil _ (tokens_of_ne_nil _ arg)]
  rfl

theorem intercalate_eq_nil (K : List Str) (hne : ∀ t ∈ K, t ≠ []) :
    "/".toList.intercalate K = [] ↔ K = [] := by
  cases K with
  | nil => simp [List.intercalate]
  | cons a K =>
    rw [intercalate_cons]
    have := hne a (List.mem_cons_self _ _)
    simp [this]

/-- The sanitizer in closed form. -/
theorem modify_argument_eq (arg : Str) :
    modify_argument arg =
      if kept_segments arg = [] then ".".toList else "/".toList.intercalate (kept_segments arg) := by
  unfold modify_argument
  simp only [modify_argument_loop_eq, intercalate_eq_nil _ (kept_segments_ne_nil arg)]

theorem sanitize_spec_eq (raw : Str) :
    sanitize_spec raw =
      if kept_segments raw = [] then ".".toList else "/".toList.intercalate (kept_segments raw) := by
  have h : (segments raw).filter (fun seg => seg ≠ [] ∧ seg ≠ "..".toList) = kept_segments raw := by
    simp only [kept_segments, tokens_of, segments, List.splitOn, List.filter_filter]
    congr 1
    funext seg
    simp [Bool.and_comm]
  unfold sanitize_spec
  simp only [h]

theorem splitOnP_no_sep (p : Char → Bool) (s : Str) :
    ∀ l ∈ s.splitOnP p, ∀ c ∈ l, p c = false := by
  induction s with
  | nil => simp
  | cons x xs ih =>
    rw [List.splitOnP_cons]
    by_cases hx : p x = true
    · rw [if_pos hx]
      intro l hl c hc
      rcases List.mem_cons.1 hl with hl | hl
      · rw [hl] at hc
        simp at hc
      · exact ih l hl c hc
    · cases hxs : xs.splitOnP p with
      | nil => simp [hx]
      | cons h t =>
        rw [hxs] at ih
        rw [if_neg hx, List.modifyHead_cons]
        intro l hl c hc
        rcases List.mem_cons.1 hl with hl | hl
        · rw [hl] at hc
          rcases List.mem_cons.1 hc with hcx | hc
          · rw [hcx]
            simpa using hx
          · exact ih h (List.mem_cons_self _ _) c hc
        · exact ih l (List.mem_cons_of_mem _ hl) c hc

theorem kept_segments_no_slash (raw : Str) : ∀ l ∈ kept_segments raw, '/' ∉ l := by
  intro l hl hc
  have h1 : l ∈ raw.splitOnP (· == '/') :=
    List.mem_of_mem_filter (List.mem_of_mem_filter hl)
  have := splitOnP_no_sep _ raw l h1 '/' hc
  simp at this

theorem segments_intercalate (K : List Str) (hK : K ≠ []) (hs : ∀ l ∈ K, '/' ∉ l) :
    segments ("/".toList.intercalate K) = K := by
  rw [slash_toList]
  exact List.splitOn_intercalate K '/' hs hK

theorem kept_segments_intercalate (K : List Str) (hK : K ≠ []) (hs : ∀ l ∈ K, '/' ∉ l)
    (hne : ∀ l ∈ K, l ≠ []) (hdd : ∀ l ∈ K, l ≠ "..".toList) :
    kept_segments ("/".toList.intercalate K) = K := by
  have h := segments_intercalate K hK hs
  unfold segments List.splitOn at h
  unfold kept_segments tokens_of
  have h1 : K.filter (· ≠ []) = K := List.filter_eq_self.2 (fun l hl => by simpa using hne l hl)
  have h2 : K.filter (· ≠ "..".toList) = K :=
    List.filter_eq_self.2 (fun l hl => by simpa using hdd l hl)
  rw [h, h1, h2]

/-! ## Claims about the sanitizer -/

/-- Claim C1: for every request target, the output of `modify_argument`, split on the
slash, has no segment equal to `..`. -/
theorem sanitize_no_dotdot_segment (arg : Str) :
    "..".toList ∉ segments (modify_argument arg) := by
  rw [modify_argument_eq]
  by_cases hK : kept_segments arg = []
  · rw [if_pos hK]
    decide
  · rw [if_neg hK, segments_intercalate _ hK (kept_segments_no_slash arg)]
    intro h
    exact kept_segments_ne_dotdot arg _ h rfl

/-- Claim C3: for every input, `modify_argument` yields the non-empty segments between
slashes that are not `..`, joined by single slashes in their order, and `.` when none
remains; so it does on `/` and on the empty string. -/
theorem sanitize_matches_spec (raw : Str) :
    modify_argument raw = sanitize_spec raw ∧
    modify_argument "/".toList = ".".toList ∧ modify_argument [] = ".".toList := by
  refine ⟨?_, by decide, by decide⟩
  rw [modify_argument_eq, sanitize_spec_eq]

/-- Claim C4: `modify_argument` is idempotent. -/
theorem sanitize_idempotent (p : Str) :
    modify_argument (modify_argument p) = modify_argument p := by
  rw [modify_argument_eq p]
  by_cases hK : kept_segments p = []
  · rw [if_pos hK]
    decide
  · rw [if_neg hK, modify_argument_eq,
      kept_segments_intercalate _ hK (kept_segments_no_slash p) (kept_segments_ne_nil p)
        (kept_segments_ne_dotdot p), if_neg hK]

/-- Claim C5, refuted as stated: `modify_argument` does not turn `/a/../b` into `b` and
`/a/b/../../c` into `c`. -/
theorem sanitize_resolves_parent_refuted :
    ¬ (modify_argument "/a/../b".toList = "b".toList ∧
       modify_argument "/a/b/../../c".toList = "c".toList) := by
  decide

/-- Claim C5, amended: `modify_argument` drops the `..` segments and keeps the segments
before them: `/a/../b` becomes `a/b` and `/a/b/../../c` becomes `a/b/c`. -/
theorem sanitize_drops_dotdot_only :
    modify_argument "/a/../b".toList = "a/b".toList ∧
    modify_argument "/a/b/../../c".toList = "a/b/c".toList := by
  decide

/-! ## Buffers -/

theorem readline_fits (len : Nat) (input line unread : Str) (hlen : 2 ≤ len)
    (h : readline len input = (some line, unread)) : line.length < len := by
  unfold readline at h
  have hs : ((input.takeWhile (· != '\n')).take (len - 2)).length ≤ len - 2 := by
    rw [List.length_take]
    exact Nat.min_le_left _ _
  cases hd : input.dropWhile (· != '\n') with
  | nil =>
    rw [hd] at h
    simp only [Prod.mk.injEq] at h
    by_cases he : (input.takeWhile (· != '\n')).take (len - 2) = []
    · simp [he] at h
    · simp only [he, if_false, Option.some.injEq] at h
      rw [← h.1]
      omega
  | cons c rest =>
    rw [hd] at h
    simp only [Prod.mk.injEq, Option.some.injEq] at h
    rw [← h.1, List.length_append, List.length_singleton]
    omega

theorem scan_s_fits (s tok rest : Str) (h : scan_s s = some (tok, rest)) :
    tok.length ≤ s.length ∧ rest.length ≤ s.length := by
  unfold scan_s at h
  by_cases hs : s.dropWhile isspace = []
  · simp [hs] at h
  · simp only [hs, if_false, Option.some.injEq, Prod.mk.injEq] at h
    have h1 := length_dropWhile_le isspace s
    have h2 := (List.takeWhile_sublist (l := s.dropWhile isspace) (fun c => !isspace c)).length_le
    have h3 := length_dropWhile_le (fun c => !isspace c) (s.dropWhile isspace)
    rw [← h.1, ← h.2]
    omega

theorem sscanf_ss_fits (rq : Str) :
    (sscanf_ss rq).2.1.length ≤ rq.length ∧ (sscanf_ss rq).2.2.length ≤ rq.length := by
  unfold sscanf_ss
  cases h1 : scan_s rq with
  | none => simp
  | some r1 =>
    obtain ⟨cmd, rest⟩ := r1
    obtain ⟨hc, hr⟩ := scan_s_fits rq cmd rest h1
    cases h2 : scan_s rest with
    | none => simpa [h2] using hc
    | some r2 =>
      obtain ⟨arg, rest2⟩ := r2
      obtain ⟨ha, _⟩ := scan_s_fits rest arg rest2 h2
      simp only [h2]
      exact ⟨hc, by omega⟩

theorem strtok_some_length (s : Str) (d : Char) (tok rest : Str)
    (h : strtok s d = some (tok, rest)) :
    tok.length + rest.length + 1 ≤ s.length ∨ (rest = [] ∧ tok.length ≤ s.length) := by
  unfold strtok at h
  by_cases hs : s.dropWhile (· == d) = []
  · simp [hs] at h
  · simp only [hs, if_false, Option.some.injEq, Prod.mk.injEq] at h
    have h1 := length_dropWhile_le (· == d) s
    have h2 : ((s.dropWhile (· == d)).takeWhile (· != d)).length +
        ((s.dropWhile (· == d)).dropWhile (· != d)).length = (s.dropWhile (· == d)).length := by
      rw [← List.length_append, List.takeWhile_append_dropWhile]
    rw [← h.1, ← h.2]
    cases hd : (s.dropWhile (· == d)).dropWhile (· != d) with
    | nil =>
      right
      rw [hd] at h2
      simp only [List.length_nil, Nat.add_zero] at h2
      exact ⟨rfl, by omega⟩
    | cons c r =>
      left
      rw [hd] at h2
      simp only [List.length_cons] at h2
      simp only [List.drop_one, List.tail_cons]
      omega

theorem modify_argument_loop_nil (fuel : Nat) (copy : Str) :
    modify_argument_loop fuel [] copy = copy := by
  cases fuel with
  | zero => rfl
  | succ n => simp [modify_argument_loop, strtok]

theorem modify_argument_loop_length (fuel : Nat) (rest copy : Str) (h : rest.length < fuel) :
    (modify_argument_loop fuel rest copy).length ≤
      copy.length + rest.length + (if copy = [] then 0 else 1) := by
  induction fuel generalizing rest copy with
  | zero => omega
  | succ n ih =>
    unfold modify_argument_loop
    cases hs : strtok rest '/' with
    | none =>
      simp only []
      omega
    | some r =>
      obtain ⟨tok, rest'⟩ := r
      obtain ⟨_, hl⟩ := strtok_some rest '/' tok rest' hs
      have hlt : rest'.length < n := by omega
      have hlen := strtok_some_length rest '/' tok rest' hs
      simp only []
      by_cases hdd : tok = "..".toList
      · rw [if_neg (not_not.2 hdd)]
        have := ih rest' copy hlt
        omega
      · rw [if_pos hdd]
        by_cases hc : copy = []
        · rw [if_neg (not_not.2 hc), hc]
          simp only [List.nil_append, List.length_nil, if_true]
          rcases hlen with hA | ⟨hB, hB'⟩
          · have := ih rest' tok hlt
            split at this <;> omega
          · rw [hB, modify_argument_loop_nil]
            omega
        · rw [if_pos hc, if_neg hc]
          rcases hlen with hA | ⟨hB, hB'⟩
          · have := ih rest' (copy ++ "/".toList ++ tok) hlt
            rw [List.length_append, List.length_append] at this
            have hs1 : "/".toList.length = 1 := rfl
            split at this <;> omega
          · rw [hB, modify_argument_loop_nil, List.length_append, List.length_append]
            have hs1 : "/".toList.length = 1 := rfl
            omega

/-- The scratch copy and the result of `modify_argument` fit the buffer of the
argument. -/
theorem modify_argument_fits (arg : Str) (h : arg.length < MAX_RQ_LEN) :
    (modify_argument_loop (arg.length + 1) arg []).length ≤ arg.length ∧
    (modify_argument arg).length < MAX_RQ_LEN := by
  have h1 := modify_argument_loop_length (arg.length + 1) arg [] (Nat.lt_succ_self _)
  simp only [List.length_nil, if_true] at h1
  refine ⟨by omega, ?_⟩
  unfold modify_argument
  simp only []
  split
  · simp [MAX_RQ_LEN]
  · omega

/-! ## The query splitter -/

theorem strrchr_eq_none (s : Str) (c : Char) : strrchr s c = none ↔ c ∉ s := by
  induction s with
  | nil => simp [strrchr]
  | cons x xs ih =>
    unfold strrchr
    cases h : strrchr xs c with
    | some j =>
      have : ¬ (c ∉ xs) := fun hn => by simp [ih.2 hn] at h
      simp only [List.mem_cons, not_or]
      constructor
      · intro h'
        simp at h'
      · intro h'
        exact absurd h'.2 this
    | none =>
      have hxs : c ∉ xs := ih.1 h
      by_cases hx : x = c
      · simp [hx]
      · have hx' : ¬ c = x := fun e => hx e.symm
        simp [hx, hx', hxs]

theorem strrchr_eq_some (s : Str) (c : Char) (i : Nat) (h : strrchr s c = some i) :
    s.take i ++ c :: s.drop (i + 1) = s ∧ c ∉ s.drop (i + 1) := by
  induction s generalizing i with
  | nil => simp [strrchr] at h
  | cons x xs ih =>
    unfold strrchr at h
    cases hxs : strrchr xs c with
    | some j =>
      simp only [hxs, Option.some.injEq] at h
      obtain ⟨h1, h2⟩ := ih j hxs
      subst h
      refine ⟨?_, ?_⟩
      · simp only [List.take_succ_cons, List.drop_succ_cons, List.cons_append]
        rw [h1]
      · simpa using h2
    | none =>
      simp only [hxs] at h
      by_cases hx : x = c
      · simp only [hx, if_true, Option.some.injEq] at h
        subst h
        subst hx
        refine ⟨by simp, ?_⟩
        simpa using (strrchr_eq_none xs x).1 hxs
      · simp [hx] at h

/-- Claim C6: `parse_query` splits at the last question mark.  Without one the path is
the line unchanged and no query is set; with one, the path is what stands before the
last one and the query what follows it, so that path, mark and query make up the line
and the query holds no mark.  So `/x?y=1` gives the path `/x` and the query `y=1`. -/
theorem parse_query_splits_at_last_mark (s : Str) :
    ('?' ∉ s → parse_query s = (s, [])) ∧
    ('?' ∈ s → ∃ path query : Str,
      parse_query s = (path, [Event.setenv "QUERY_STRING".toList query]) ∧
      path ++ "?".toList ++ query = s ∧ '?' ∉ query) ∧
    parse_query "/x?y=1".toList =
      ("/x".toList, [Event.setenv "QUERY_STRING".toList "y=1".toList]) ∧
    parse_query "/x".toList = ("/x".toList, []) := by
  refine ⟨?_, ?_, by decide, by decide⟩
  · intro h
    unfold parse_query
    rw [(strrchr_eq_none s '?').2 h]
  · intro h
    unfold parse_query
    cases hs : strrchr s '?' with
    | none => exact absurd h ((strrchr_eq_none s '?').1 hs)
    | some i =>
      obtain ⟨h1, h2⟩ := strrchr_eq_some s '?' i hs
      exact ⟨s.take i, s.drop (i + 1), rfl, by simpa using h1, h2⟩

/-- Claim C6 at `/a?b?c`: the split is at the last of the two marks. -/
theorem parse_query_splits_at_last_mark_witness :
    '?' ∈ "/a?b?c".toList ∧
    ∃ path query : Str,
      parse_query "/a?b?c".toList = (path, [Event.setenv "QUERY_STRING".toList query]) ∧
      path ++ "?".toList ++ query = "/a?b?c".toList ∧ '?' ∉ query :=
  ⟨by decide, (parse_query_splits_at_last_mark "/a?b?c".toList).2.1 (by decide)⟩

/-! ## The dispatcher -/

theorem sscanf_ss_two (rq cmd target : Str) (more : List Str)
    (hrq : words rq = cmd :: target :: more) : sscanf_ss rq = (2, cmd, target) := by
  rw [sscanf_ss_words, hrq]

theorem sscanf_ss_short (rq : Str) (h : (words rq).length < 2) : (sscanf_ss rq).1 ≠ 2 := by
  rw [sscanf_ss_words]
  cases hw : words rq with
  | nil => simp
  | cons a t =>
    cases t with
    | nil => simp
    | cons b t' =>
      rw [hw] at h
      simp only [List.length_cons] at h
      omega

theorem parse_query_events (s : Str) : ∀ e ∈ (parse_query s).2, e.isCall = false := by
  unfold parse_query
  cases strrchr s '?' with
  | none => simp
  | some i => simp [Event.isCall]

theorem handler_run_head (w : World) (h : Handler) (a : Str) :
    (h.run w a).head? = some (Event.call h a) := by
  cases h <;> simp [Handler.run, do_404, do_403, do_dir, do_ls, do_exec, do_cat]

theorem process_rq_get_or_head (w : World) (rq cmd target : Str) (more : List Str)
    (hrq : words rq = cmd :: target :: more)
    (hcmd : cmd = "GET".toList ∨ cmd = "HEAD".toList) :
    process_rq w rq =
      (parse_query (modify_argument target)).2 ++
        [Event.setenv "REQUEST_METHOD".toList cmd] ++
        ((not_exist w (dispatched_path target)).2 ++
          if (not_exist w (dispatched_path target)).1 then do_404 w (dispatched_path target)
          else
            (no_access w (dispatched_path target)).2 ++
              if (no_access w (dispatched_path target)).1 then do_403 w (dispatched_path target)
              else
                (isadir w (dispatched_path target)).2 ++
                  if (isadir w (dispatched_path target)).1 then do_dir w (dispatched_path target)
                  else if ends_in_cgi (dispatched_path target) then
                    do_exec w (dispatched_path target)
                  else do_cat w (dispatched_path target)) := by
  unfold process_rq
  rw [sscanf_ss_two rq cmd target more hrq]
  rcases hcmd with rfl | rfl
  · simp [dispatched_path]
  · simp [dispatched_path]

theorem output_append (a b : List Event) : output (a ++ b) = output a ++ output b := by
  induction a with
  | nil => rfl
  | cons e t ih => cases e <;> simp [output, ih]

theorem parse_query_output (s : Str) : output (parse_query s).2 = [] := by
  unfold parse_query
  cases strrchr s '?' with
  | none => rfl
  | some i => rfl

theorem parse_query_setenv (s : Str) :
    ∀ e ∈ (parse_query s).2, ∃ v, e = Event.setenv "QUERY_STRING".toList v := by
  unfold parse_query
  cases strrchr s '?' with
  | none => simp
  | some i => simp

theorem process_rq_other (w : World) (rq cmd target : Str) (more : List Str)
    (hrq : words rq = cmd :: target :: more)
    (hget : cmd ≠ "GET".toList) (hhead : cmd ≠ "HEAD".toList) :
    process_rq w rq = (parse_query (modify_argument target)).2 ++ cannot_do w := by
  have hget' : ¬ cmd = ['G', 'E', 'T'] := hget
  have hhead' : ¬ cmd = ['H', 'E', 'A', 'D'] := hhead
  unfold process_rq
  rw [sscanf_ss_two rq cmd target more hrq]
  simp [hget', hhead']

theorem header_events (w : World) (code : Int) (msg : Str) (t : Option Str) :
    ∀ e ∈ header w code msg t, ∃ s, e = Event.write s := by
  intro e he
  unfold header at he
  rcases List.mem_append.1 he with he | he
  · simp only [List.mem_cons, List.mem_singleton, List.not_mem_nil, or_false] at he
    rcases he with he | he | he <;> exact ⟨_, he⟩
  · cases t with
    | none => simp at he
    | some t =>
      by_cases ht : t = []
      · simp only [ht, if_true, List.mem_singleton] at he
        exact ⟨_, he⟩
      · simp only [ht, if_false, List.mem_singleton] at he
        exact ⟨_, he⟩

theorem cannot_do_events (w : World) : ∀ e ∈ cannot_do w, ∃ s, e = Event.write s := by
  intro e he
  unfold cannot_do at he
  rcases List.mem_append.1 he with he | he
  · exact header_events w _ _ _ e he
  · simp only [List.mem_cons, List.mem_singleton, List.not_mem_nil, or_false] at he
    rcases he with he | he <;> exact ⟨_, he⟩

theorem process_rq_short (w : World) (rq : Str) (h : (words rq).length < 2) :
    process_rq w rq = bad_request w := by
  have hn := sscanf_ss_short rq h
  unfold process_rq
  rcases hs : sscanf_ss rq with ⟨n, cmd, arg⟩
  rw [hs] at hn
  simp only [] at hn
  simp [hn]

theorem not_exist_iff (w : World) (f : Str) :
    (not_exist w f).1 = true ↔ w.stat f = Except.error ENOENT := by
  unfold not_exist
  cases h : w.stat f with
  | ok info => simp
  | error errno => simp

theorem header_calls (w : World) (code : Int) (msg : Str) (t : Option Str) :
    (header w code msg t).filter Event.isCall = [] := by
  rw [List.filter_eq_nil_iff]
  intro e he
  obtain ⟨s, hs⟩ := header_events w code msg t e he
  rw [hs]
  simp [Event.isCall]

theorem do_404_calls (w : World) (a : Str) :
    (do_404 w a).filter Event.isCall = [Event.call Handler.do_404 a] := by
  simp [do_404, List.filter_cons, List.filter_append, header_calls, Event.isCall]

theorem do_403_calls (w : World) (a : Str) :
    (do_403 w a).filter Event.isCall = [Event.call Handler.do_403 a] := by
  simp [do_403, List.filter_cons, List.filter_append, header_calls, Event.isCall]

theorem do_exec_calls (w : World) (a : Str) :
    (do_exec w a).filter Event.isCall = [Event.call Handler.do_exec a] := by
  by_cases h : w.execl a = true <;>
    simp [do_exec, List.filter_cons, List.filter_append, header_calls, Event.isCall, h]

theorem do_cat_calls (w : World) (a : Str) :
    (do_cat w a).filter Event.isCall = [Event.call Handler.do_cat a] := by
  cases h : w.fopen a <;>
    simp [do_cat, List.filter_cons, List.filter_append, header_calls, Event.isCall, h]

theorem classify_missing_iff (w : World) (p : Str) :
    classify w p = FsEntryKind.Missing ↔ (not_exist w p).1 = true := by
  unfold classify
  by_cases h1 : (not_exist w p).1 = true
  · simp [h1]
  · by_cases h2 : (no_access w p).1 = true
    · simp [h1, h2]
    · by_cases h3 : (isadir w p).1 = true
      · simp [h1, h2, h3]
      · by_cases h4 : ends_in_cgi p = true
        · simp [h1, h2, h3, h4]
        · simp [h1, h2, h3, h4]

theorem process_rq_splits (w : World) (rq cmd target : Str) (more : List Str)
    (hrq : words rq = cmd :: target :: more)
    (hcmd : cmd = "GET".toList ∨ cmd = "HEAD".toList) :
    ∃ pre : List Event,
      (∀ e ∈ pre, e.isCall = false) ∧
      process_rq w rq =
        pre ++ (route (classify w (dispatched_path target))).run w (dispatched_path target) := by
  have hq := parse_query_events (modify_argument target)
  rw [process_rq_get_or_head w rq cmd target more hrq hcmd]
  by_cases h1 : (not_exist w (dispatched_path target)).1 = true
  · refine ⟨(parse_query (modify_argument target)).2 ++
        [Event.setenv "REQUEST_METHOD".toList cmd] ++ (not_exist w (dispatched_path target)).2,
      ?_, ?_⟩
    · intro e he
      simp only [List.mem_append, List.mem_singleton, not_exist] at he
      rcases he with (he | he) | he
      · exact hq e he
      · rw [he]; rfl
      · rw [he]; rfl
    · simp [classify, route, Handler.run, h1]
  · by_cases h2 : (no_access w (dispatched_path target)).1 = true
    · refine ⟨(parse_query (modify_argument target)).2 ++
          [Event.setenv "REQUEST_METHOD".toList cmd] ++ (not_exist w (dispatched_path target)).2 ++
          (no_access w (dispatched_path target)).2,
        ?_, ?_⟩
      · intro e he
        simp only [List.mem_append, List.mem_singleton, not_exist, no_access] at he
        rcases he with ((he | he) | he) | he
        · exact hq e he
        · rw [he]; rfl
        · rw [he]; rfl
        · rw [he]; rfl
      · simp [classify, route, Handler.run, h1, h2]
    · refine ⟨(parse_query (modify_argument target)).2 ++
          [Event.setenv "REQUEST_METHOD".toList cmd] ++ (not_exist w (dispatched_path target)).2 ++
          (no_access w (dispatched_path target)).2 ++ (isadir w (dispatched_path target)).2,
        ?_, ?_⟩
      · intro e he
        simp only [List.mem_append, List.mem_singleton, not_exist, no_access, isadir] at he
        rcases he with (((he | he) | he) | he) | he
        · exact hq e he
        · rw [he]; rfl
        · rw [he]; rfl
        · rw [he]; rfl
        · rw [he]; rfl
      · by_cases h3 : (isadir w (dispatched_path target)).1 = true
        · simp [classify, route, Handler.run, h1, h2, h3]
        · by_cases h4 : ends_in_cgi (dispatched_path target) = true
          · simp [classify, route, Handler.run, h1, h2, h3, h4]
          · simp [classify, route, Handler.run, h1, h2, h3, h4]

theorem route_classify_eq (w : World) (p : Str) :
    route (classify w p) =
      (if (not_exist w p).1 then Handler.do_404
       else if (no_access w p).1 then Handler.do_403
       else if (isadir w p).1 then Handler.do_dir
       else if ends_in_cgi p then Handler.do_exec
       else Handler.do_cat) := by
  unfold classify
  by_cases h1 : (not_exist w p).1 = true
  · simp [route, h1]
  · by_cases h2 : (no_access w p).1 = true
    · simp [route, h1, h2]
    · by_cases h3 : (isadir w p).1 = true
      · simp [route, h1, h2, h3]
      · by_cases h4 : ends_in_cgi p = true
        · simp [route, h1, h2, h3, h4]
        · simp [route, h1, h2, h3, h4]

theorem routed_run_calls (w : World) (p : Str)
    (hd : route (classify w p) ≠ Handler.do_dir) :
    ((route (classify w p)).run w p).filter Event.isCall =
      [Event.call (route (classify w p)) p] := by
  cases hk : classify w p with
  | Missing => simp [route, Handler.run, do_404_calls]
  | Forbidden => simp [route, Handler.run, do_403_calls]
  | Directory => rw [hk] at hd; exact absurd rfl hd
  | CgiExecutable => simp [route, Handler.run, do_exec_calls]
  | RegularFile => simp [route, Handler.run, do_cat_calls]

/-! ## Claims about the dispatcher -/

/-- Claim C7: for every request line whose first two tokens are `GET` or `HEAD` and a
target, and every filesystem state, `process_rq` enters no handler before it runs
exactly one, on the sanitized and query-stripped path, and that one is chosen in the
priority order: missing gives `do_404`, else forbidden `do_403`, else a directory
`do_dir`, else the extension `cgi` gives `do_exec`, else `do_cat`.  Unless that one is
`do_dir`, which hands on to a second handler itself, its entry is the only handler entry
of the whole trace. -/
theorem dispatch_runs_one_handler (w : World) (rq cmd target : Str) (more : List Str)
    (hrq : words rq = cmd :: target :: more)
    (hcmd : cmd = "GET".toList ∨ cmd = "HEAD".toList) :
    (∃ pre : List Event,
      (∀ e ∈ pre, e.isCall = false) ∧
      process_rq w rq =
        pre ++ (route (classify w (dispatched_path target))).run w (dispatched_path target)) ∧
    ((route (classify w (dispatched_path target))).run w (dispatched_path target)).head? =
      some (Event.call (route (classify w (dispatched_path target))) (dispatched_path target)) ∧
    route (classify w (dispatched_path target)) =
      (if (not_exist w (dispatched_path target)).1 then Handler.do_404
       else if (no_access w (dispatched_path target)).1 then Handler.do_403
       else if (isadir w (dispatched_path target)).1 then Handler.do_dir
       else if ends_in_cgi (dispatched_path target) then Handler.do_exec
       else Handler.do_cat) ∧
    (route (classify w (dispatched_path target)) ≠ Handler.do_dir →
      (process_rq w rq).filter Event.isCall =
        [Event.call (route (classify w (dispatched_path target))) (dispatched_path target)]) := by
  obtain ⟨pre, hpre, hsplit⟩ := process_rq_splits w rq cmd target more hrq hcmd
  refine ⟨⟨pre, hpre, hsplit⟩, handler_run_head _ _ _, route_classify_eq _ _, ?_⟩
  intro hd
  have hnil : pre.filter Event.isCall = [] := by
    rw [List.filter_eq_nil_iff]
    intro e he
    simp [hpre e he]
  rw [hsplit, List.filter_append, hnil, List.nil_append, routed_run_calls w _ hd]

/-- Claim C7 on `GET /pub/a.txt?v=1 HTTP/1.0` in the sample world: the file is neither
missing, forbidden, a directory nor a program, and `do_cat` runs on `pub/a.txt`. -/
theorem dispatch_runs_one_handler_witness :
    words "GET /pub/a.txt?v=1 HTTP/1.0\r\n".toList =
      ["GET".toList, "/pub/a.txt?v=1".toList, "HTTP/1.0".toList] ∧
    route (classify sample_world (dispatched_path "/pub/a.txt?v=1".toList)) = Handler.do_cat ∧
    ∃ pre : List Event,
      (∀ e ∈ pre, e.isCall = false) ∧
      process_rq sample_world "GET /pub/a.txt?v=1 HTTP/1.0\r\n".toList =
        pre ++ (route (classify sample_world (dispatched_path "/pub/a.txt?v=1".toList))).run
          sample_world (dispatched_path "/pub/a.txt?v=1".toList) :=
  ⟨by decide, by decide,
    (dispatch_runs_one_handler sample_world "GET /pub/a.txt?v=1 HTTP/1.0\r\n".toList
      "GET".toList "/pub/a.txt?v=1".toList ["HTTP/1.0".toList] (by decide) (by decide)).1⟩

/-- Claim C8: for every request line with at least two tokens whose first token is
neither `GET` nor `HEAD`, `process_rq` sends the 501 Not Implemented response and
nothing else; its trace holds, besides the writes, at most the `setenv` of the query:
no filesystem call and no handler entry, whatever the filesystem. -/
theorem unsupported_method_gets_501 (w : World) (rq cmd target : Str) (more : List Str)
    (hrq : words rq = cmd :: target :: more)
    (hget : cmd ≠ "GET".toList) (hhead : cmd ≠ "HEAD".toList) :
    output (process_rq w rq) =
      "HTTP/1.0 501 Not Implemented\r\nDate: ".toList ++ rfc822_time w w.time ++
        "\r\nServer: WSNG/1\r\nContent-Type: text/plain\r\n\r\n".toList ++
        "That command is not yet implemented\r\n".toList ∧
    (∀ e ∈ process_rq w rq, e.isCall = false) ∧
    (∀ e ∈ process_rq w rq,
      (∃ s, e = Event.write s) ∨ (∃ v, e = Event.setenv "QUERY_STRING".toList v)) := by
  rw [process_rq_other w rq cmd target more hrq hget hhead]
  have h501 : fmt_d 501 = "501".toList := by decide
  have hev : ∀ e ∈ (parse_query (modify_argument target)).2 ++ cannot_do w,
      (∃ s, e = Event.write s) ∨ (∃ v, e = Event.setenv "QUERY_STRING".toList v) := by
    intro e he
    rcases List.mem_append.1 he with he | he
    · exact Or.inr (parse_query_setenv _ e he)
    · exact Or.inl (cannot_do_events w e he)
  refine ⟨?_, ?_, hev⟩
  · rw [output_append, parse_query_output]
    simp [cannot_do, header, output, h501, SERVER_NAME, VERSION]
  · intro e he
    rcases hev e he with ⟨s, hs⟩ | ⟨v, hv⟩
    · rw [hs]; rfl
    · rw [hv]; rfl

/-- Claim C8 on `POST /x?y=1 HTTP/1.0` in the sample world. -/
theorem unsupported_method_gets_501_witness :
    words "POST /x?y=1 HTTP/1.0\r\n".toList =
      ["POST".toList, "/x?y=1".toList, "HTTP/1.0".toList] ∧
    output (process_rq sample_world "POST /x?y=1 HTTP/1.0\r\n".toList) =
      "HTTP/1.0 501 Not Implemented\r\nDate: ".toList ++
        rfc822_time sample_world sample_world.time ++
        "\r\nServer: WSNG/1\r\nContent-Type: text/plain\r\n\r\n".toList ++
        "That command is not yet implemented\r\n".toList :=
  ⟨by decide,
    (unsupported_method_gets_501 sample_world "POST /x?y=1 HTTP/1.0\r\n".toList "POST".toList
      "/x?y=1".toList ["HTTP/1.0".toList] (by decide) (by decide) (by decide)).1⟩

/-- Claim C9: for every request line with fewer than two white-space separated tokens,
`process_rq` writes the 400 Bad Request response with content type `text/plain` and
does nothing else: its trace is these five writes, with no `setenv`, no filesystem
call and no handler entry. -/
theorem short_request_gets_400 (w : World) (rq : Str) (h : (words rq).length < 2) :
    process_rq w rq =
      [Event.write "HTTP/1.0 400 Bad Request\r\n".toList,
       Event.write ("Date: ".toList ++ rfc822_time w w.time ++ "\r\n".toList),
       Event.write "Server: WSNG/1\r\n".toList,
       Event.write "Content-Type: text/plain\r\n".toList,
       Event.write "\r\nI cannot understand your request\r\n".toList] := by
  have h400 : fmt_d 400 = "400".toList := by decide
  rw [process_rq_short w rq h]
  simp [bad_request, header, h400, SERVER_NAME, VERSION]

/-- Claim C9 on the line `GET` alone in the sample world. -/
theorem short_request_gets_400_witness :
    (words "GET\r\n".toList).length < 2 ∧
    process_rq sample_world "GET\r\n".toList =
      [Event.write "HTTP/1.0 400 Bad Request\r\n".toList,
       Event.write ("Date: ".toList ++ rfc822_time sample_world sample_world.time ++
         "\r\n".toList),
       Event.write "Server: WSNG/1\r\n".toList,
       Event.write "Content-Type: text/plain\r\n".toList,
       Event.write "\r\nI cannot understand your request\r\n".toList] :=
  ⟨by decide, short_request_gets_400 sample_world "GET\r\n".toList (by decide)⟩

/-- Claim C10, refuted as stated: a lookup that fails for lack of permission is not
classified missing and gets no 404 response. -/
theorem lookup_error_always_404_refuted :
    ¬ ∀ (w : World) (rq cmd target : Str) (more : List Str) (errno : Nat),
      words rq = cmd :: target :: more →
      (cmd = "GET".toList ∨ cmd = "HEAD".toList) →
      w.stat (dispatched_path target) = Except.error errno →
      classify w (dispatched_path target) = FsEntryKind.Missing ∧
      ∃ body, output (process_rq w rq) = "HTTP/1.0 404 Not Found\r\n".toList ++ body := by
  intro h
  have h1 := (h locked_world "GET /x HTTP/1.0\r\n".toList "GET".toList "/x".toList
    ["HTTP/1.0".toList] EACCES (by decide) (by decide) rfl).1
  exact absurd h1 (by decide)

/-- Claim C10, amended: for every `GET` or `HEAD` request whose `stat` on the path
fails, the path is classified missing exactly when the error is `ENOENT`, and then the
response is the 404 response naming the path. -/
theorem enoent_lookup_gets_404 (w : World) (rq cmd target : Str) (more : List Str)
    (errno : Nat) (hrq : words rq = cmd :: target :: more)
    (hcmd : cmd = "GET".toList ∨ cmd = "HEAD".toList)
    (hstat : w.stat (dispatched_path target) = Except.error errno) :
    (classify w (dispatched_path target) = FsEntryKind.Missing ↔ errno = ENOENT) ∧
    (errno = ENOENT →
      output (process_rq w rq) =
        "HTTP/1.0 404 Not Found\r\nDate: ".toList ++ rfc822_time w w.time ++
          "\r\nServer: WSNG/1\r\nContent-Type: text/plain\r\n\r\n".toList ++
          "The item you requested: ".toList ++ dispatched_path target ++
          "\r\nis not found\r\n".toList) := by
  have h404 : fmt_d 404 = "404".toList := by decide
  have hne : (not_exist w (dispatched_path target)).1 = true ↔ errno = ENOENT := by
    rw [not_exist_iff, hstat]
    simp
  refine ⟨(classify_missing_iff w _).trans hne, ?_⟩
  · intro he
    rw [process_rq_get_or_head w rq cmd target more hrq hcmd, if_pos (hne.2 he)]
    simp only [output_append, parse_query_output]
    simp [not_exist, do_404, header, output, h404, SERVER_NAME, VERSION]

/-- Claim C10, amended, on `GET /nothing HTTP/1.0` in the sample world. -/
theorem enoent_lookup_gets_404_witness :
    words "GET /nothing HTTP/1.0\r\n".toList =
      ["GET".toList, "/nothing".toList, "HTTP/1.0".toList] ∧
    sample_world.stat (dispatched_path "/nothing".toList) = Except.error ENOENT ∧
    classify sample_world (dispatched_path "/nothing".toList) = FsEntryKind.Missing ∧
    output (process_rq sample_world "GET /nothing HTTP/1.0\r\n".toList) =
      "HTTP/1.0 404 Not Found\r\nDate: ".toList ++ rfc822_time sample_world sample_world.time ++
        "\r\nServer: WSNG/1\r\nContent-Type: text/plain\r\n\r\n".toList ++
        "The item you requested: ".toList ++ dispatched_path "/nothing".toList ++
        "\r\nis not found\r\n".toList :=
  ⟨by decide, rfl,
    (enoent_lookup_gets_404 sample_world "GET /nothing HTTP/1.0\r\n".toList "GET".toList
      "/nothing".toList ["HTTP/1.0".toList] ENOENT (by decide) (by decide) rfl).1.2 rfl,
    (enoent_lookup_gets_404 sample_world "GET /nothing HTTP/1.0\r\n".toList "GET".toList
      "/nothing".toList ["HTTP/1.0".toList] ENOENT (by decide) (by decide) rfl).2 rfl⟩

/-- Claim C2, evaluated where it fails: for the target `/..?x` the sanitizer keeps the
token `..?x`, the query split then leaves `..`, and that path reaches `stat` and the
directory handlers, which list the parent of the server root. -/
theorem traversal_survives_query_split :
    (¬ ∀ target : Str, "..".toList ∉ segments (dispatched_path target)) ∧
    modify_argument "/..?x".toList = "..?x".toList ∧
    dispatched_path "/..?x".toList = "..".toList ∧
    "..".toList ∈ segments (dispatched_path "/..?x".toList) ∧
    Event.stat "..".toList ∈ process_rq sample_world "GET /..?x HTTP/1.0\r\n".toList ∧
    Event.call Handler.do_dir "..".toList ∈
      process_rq sample_world "GET /..?x HTTP/1.0\r\n".toList ∧
    Event.opendir "..".toList ∈ process_rq sample_world "GET /..?x HTTP/1.0\r\n".toList := by
  refine ⟨fun h => h "/..?x".toList (by decide), ?_⟩
  decide

/-! ## Claims about the handlers -/

theorem fmt_d_eq_toString (n : Int) : fmt_d n = (toString n).toList := by
  cases n with
  | ofNat m =>
    have h : ¬ (Int.ofNat m < 0) := by simp
    simp only [fmt_d, h, if_false]
    rfl
  | negSucc m =>
    have h : Int.negSucc m < 0 := Int.negSucc_lt_zero m
    simp only [fmt_d, h, if_true]
    rfl

/-- Claim C11, refuted as stated: a file that cannot be opened does not get the 200
header and the blank line from `do_cat`. -/
theorem unopened_file_header_refuted :
    ¬ ∀ (w : World) (f : Str), w.fopen f = none →
      output (do_cat w f) =
        output (header w 200 "OK".toList (w.VLlookup (file_type f))) ++ "\r\n".toList := by
  intro h
  exact absurd (h sample_world "gone.txt".toList rfl) (by decide)

/-- Claim C11, amended: for every path whose file cannot be opened, `do_cat` does no
more than try to open it and writes nothing to the client, neither header nor body. -/
theorem unopened_file_writes_nothing (w : World) (f : Str) (h : w.fopen f = none) :
    do_cat w f = [Event.call Handler.do_cat f, Event.fopen f] ∧ output (do_cat w f) = [] := by
  have ht : do_cat w f = [Event.call Handler.do_cat f, Event.fopen f] := by
    simp [do_cat, h]
  exact ⟨ht, by rw [ht]; rfl⟩

/-- Claim C11, amended, on the file `gone.txt` that the sample world cannot open. -/
theorem unopened_file_writes_nothing_witness :
    sample_world.fopen "gone.txt".toList = none ∧
    do_cat sample_world "gone.txt".toList =
      [Event.call Handler.do_cat "gone.txt".toList, Event.fopen "gone.txt".toList] ∧
    output (do_cat sample_world "gone.txt".toList) = [] :=
  ⟨rfl, unopened_file_writes_nothing sample_world "gone.txt".toList rfl⟩

/-- Claim C12: for every status code, reason, date and content type, `header` writes the
status line with the code in decimal, the `Date` line and `Server: WSNG/1`, in that
order, then nothing more for a NULL content type, `Content-Type: text/plain` for the
empty one, and `Content-Type:` with the given type otherwise. -/
theorem header_lines (w : World) (code : Int) (msg : Str) :
    header w code msg none =
      [Event.write ("HTTP/1.0 ".toList ++ (toString code).toList ++ " ".toList ++ msg ++
         "\r\n".toList),
       Event.write ("Date: ".toList ++ rfc822_time w w.time ++ "\r\n".toList),
       Event.write "Server: WSNG/1\r\n".toList] ∧
    header w code msg (some []) =
      header w code msg none ++ [Event.write "Content-Type: text/plain\r\n".toList] ∧
    (∀ t : Str, t ≠ [] →
      header w code msg (some t) =
        header w code msg none ++
          [Event.write ("Content-Type: ".toList ++ t ++ "\r\n".toList)]) := by
  refine ⟨?_, ?_, ?_⟩
  · simp [header, fmt_d_eq_toString, SERVER_NAME, VERSION]
  · simp [header, CONTENT_DEFAULT]
  · intro t ht
    simp [header, ht]

/-- Claim C12 on the replies of the sample world: the 404 header with `text/plain`, the
CGI header without content type, and the fallback for an empty content type. -/
theorem header_lines_witness :
    output (header sample_world 404 "Not Found".toList (some "text/plain".toList)) =
      ("HTTP/1.0 404 Not Found\r\nDate: Thu, 01 Jan 1970 00:00:00 GMT\r\n".toList ++
       "Server: WSNG/1\r\nContent-Type: text/plain\r\n".toList) ∧
    output (header sample_world 200 "OK".toList none) =
      "HTTP/1.0 200 OK\r\nDate: Thu, 01 Jan 1970 00:00:00 GMT\r\nServer: WSNG/1\r\n".toList ∧
    header sample_world 200 "OK".toList (some []) =
      header sample_world 200 "OK".toList none ++
        [Event.write "Content-Type: text/plain\r\n".toList] :=
  ⟨by decide, by decide, (header_lines sample_world 200 "OK".toList).2.1⟩

/-! ## The path handed to the filesystem tests -/

theorem mem_intercalate (sep : Str) (K : List Str) (c : Char)
    (h : c ∈ sep.intercalate K) : c ∈ sep ∨ ∃ l ∈ K, c ∈ l := by
  cases K with
  | nil => simp [List.intercalate] at h
  | cons a K =>
    rw [intercalate_cons] at h
    rcases List.mem_append.1 h with h | h
    · exact Or.inr ⟨a, List.mem_cons_self _ _, h⟩
    · obtain ⟨m, hm, hc⟩ := List.mem_flatten.1 h
      obtain ⟨l, hl, rfl⟩ := List.mem_map.1 hm
      rcases List.mem_append.1 hc with hc | hc
      · exact Or.inl hc
      · exact Or.inr ⟨l, List.mem_cons_of_mem _ hl, hc⟩

theorem splitOnP_subset (p : Char → Bool) (s : Str) :
    ∀ l ∈ s.splitOnP p, ∀ c ∈ l, c ∈ s := by
  induction s with
  | nil => simp
  | cons x xs ih =>
    rw [List.splitOnP_cons]
    by_cases hx : p x = true
    · rw [if_pos hx]
      intro l hl c hc
      rcases List.mem_cons.1 hl with hl | hl
      · rw [hl] at hc
        simp at hc
      · exact List.mem_cons_of_mem _ (ih l hl c hc)
    · cases hxs : xs.splitOnP p with
      | nil => simp [hx]
      | cons h t =>
        rw [hxs] at ih
        rw [if_neg hx, List.modifyHead_cons]
        intro l hl c hc
        rcases List.mem_cons.1 hl with hl | hl
        · rw [hl] at hc
          rcases List.mem_cons.1 hc with hcx | hc
          · rw [hcx]
            exact List.mem_cons_self _ _
          · exact List.mem_cons_of_mem _ (ih h (List.mem_cons_self _ _) c hc)
        · exact List.mem_cons_of_mem _ (ih l (List.mem_cons_of_mem _ hl) c hc)

/-- The sanitizer invents no character but the dot and the slash. -/
theorem modify_argument_mem (arg : Str) (c : Char) (h : c ∈ modify_argument arg) :
    c = '.' ∨ c = '/' ∨ c ∈ arg := by
  rw [modify_argument_eq] at h
  by_cases hK : kept_segments arg = []
  · rw [if_pos hK] at h
    left
    simpa using h
  · rw [if_neg hK] at h
    rcases mem_intercalate _ _ c h with h | ⟨l, hl, hc⟩
    · right; left
      simpa using h
    · right; right
      have h1 : l ∈ arg.splitOnP (· == '/') :=
        List.mem_of_mem_filter (List.mem_of_mem_filter hl)
      exact splitOnP_subset _ arg l h1 c hc

theorem modify_argument_ne_nil (arg : Str) : modify_argument arg ≠ [] := by
  rw [modify_argument_eq]
  by_cases hK : kept_segments arg = []
  · rw [if_pos hK]
    decide
  · rw [if_neg hK]
    exact fun h => hK ((intercalate_eq_nil _ (kept_segments_ne_nil arg)).1 h)

theorem dispatched_path_plain (target : Str) (h : '?' ∉ target) :
    dispatched_path target = modify_argument target := by
  have hm : '?' ∉ modify_argument target := by
    intro hc
    rcases modify_argument_mem target '?' hc with h1 | h1 | h1
    · exact absurd h1 (by decide)
    · exact absurd h1 (by decide)
    · exact h h1
  unfold dispatched_path parse_query
  rw [(strrchr_eq_none _ '?').2 hm]

/-- Claim C14, evaluated where it fails: for the root target with a query, `/?x=1`, the
sanitizer keeps the token `?x=1`, the query split then leaves the empty path, and
`stat` is called on the empty name, which gives the 404 reply; the root target `/`
alone gives `.`, and so does every target without a question mark give a path that is
not empty. -/
theorem root_with_query_gives_empty_path :
    (¬ ∀ target : Str, dispatched_path target ≠ []) ∧
    modify_argument "/?x=1".toList = "?x=1".toList ∧
    dispatched_path "/?x=1".toList = [] ∧
    dispatched_path "/".toList = ".".toList ∧
    Event.stat [] ∈ process_rq sample_world "GET /?x=1 HTTP/1.0\r\n".toList ∧
    output (process_rq sample_world "GET /?x=1 HTTP/1.0\r\n".toList) =
      ("HTTP/1.0 404 Not Found\r\nDate: Thu, 01 Jan 1970 00:00:00 GMT\r\n".toList ++
       "Server: WSNG/1\r\nContent-Type: text/plain\r\n\r\n".toList ++
       "The item you requested: \r\nis not found\r\n".toList) ∧
    (∀ target : Str, '?' ∉ target → dispatched_path target ≠ []) := by
  refine ⟨fun h => h "/?x=1".toList (by decide), by decide, by decide, by decide, by decide,
    by decide, ?_⟩
  intro target h
  rw [dispatched_path_plain target h]
  exact modify_argument_ne_nil target

/-! ## The directory handler -/

theorem do_dir_html (w : World) (dir : Str) (info : Stat)
    (hfit : dir.length + "/index.html".toList.length < LINELEN)
    (hhtml : w.stat (dir ++ "/index.html".toList) = Except.ok info) :
    do_dir w dir =
      Event.call Handler.do_dir dir :: Event.stat (dir ++ "/index.html".toList) ::
        do_cat w (dir ++ "/index.html".toList) := by
  unfold do_dir
  rw [if_neg (Nat.not_le.2 hfit)]
  simp only [hhtml]

theorem do_dir_cgi (w : World) (dir : Str) (errno : Nat) (info : Stat)
    (hfit : dir.length + "/index.html".toList.length < LINELEN)
    (hhtml : w.stat (dir ++ "/index.html".toList) = Except.error errno)
    (hcgi : w.stat (dir ++ "/index.cgi".toList) = Except.ok info) :
    do_dir w dir =
      Event.call Handler.do_dir dir :: Event.stat (dir ++ "/index.html".toList) ::
        Event.stat (dir ++ "/index.cgi".toList) :: do_exec w (dir ++ "/index.cgi".toList) := by
  unfold do_dir
  rw [if_neg (Nat.not_le.2 hfit)]
  simp only [hhtml, hcgi]

theorem do_dir_listing (w : World) (dir : Str) (errno errno' : Nat)
    (hfit : dir.length + "/index.html".toList.length < LINELEN)
    (hhtml : w.stat (dir ++ "/index.html".toList) = Except.error errno)
    (hcgi : w.stat (dir ++ "/index.cgi".toList) = Except.error errno') :
    do_dir w dir =
      Event.call Handler.do_dir dir :: Event.stat (dir ++ "/index.html".toList) ::
        Event.stat (dir ++ "/index.cgi".toList) :: do_ls w dir := by
  unfold do_dir
  rw [if_neg (Nat.not_le.2 hfit)]
  simp only [hhtml, hcgi]

theorem do_dir_overrun (w : World) (dir : Str)
    (hbig : LINELEN ≤ dir.length + "/index.html".toList.length) :
    do_dir w dir = [Event.call Handler.do_dir dir, Event.undefined] := by
  unfold do_dir
  rw [if_pos hbig]

theorem length_flatten_replicate (n : Nat) :
    ((List.replicate n ".".toList).map ("/".toList ++ ·)).flatten.length = 2 * n := by
  induction n with
  | zero => rfl
  | succ k ih =>
    rw [List.replicate_succ, List.map_cons, List.flatten_cons, List.length_append, ih]
    have : ("/".toList ++ ".".toList).length = 2 := rfl
    omega

theorem deep_dir_length : deep_dir.length = 1013 := by
  have h : deep_dir = "/".toList.intercalate (".".toList :: List.replicate 506 ".".toList) := rfl
  rw [h, intercalate_cons, List.length_append, length_flatten_replicate]
  rfl

theorem deep_dir_mem (c : Char) (h : c ∈ deep_dir) : c = '/' ∨ c = '.' := by
  rcases mem_intercalate _ _ c h with h | ⟨l, hl, hc⟩
  · left
    simpa using h
  · right
    rw [List.eq_of_mem_replicate hl] at hc
    simpa using hc

theorem tokens_of_append_sep (p : Char → Bool) (a b : Str) (sep : Char) (ha : a ≠ [])
    (hp : ∀ c ∈ a, ¬ p c = true) (hs : p sep = true) :
    tokens_of p (a ++ sep :: b) = a :: tokens_of p b := by
  unfold tokens_of
  rw [List.splitOnP_first p a hp sep hs b, List.filter_cons_of_pos (by simpa using ha)]

theorem deep_words :
    words ("GET /".toList ++ deep_dir ++ " HTTP/1.0\r\n".toList) =
      ["GET".toList, "/".toList ++ deep_dir, "HTTP/1.0".toList] := by
  have hd : ∀ d : Str, "GET /".toList ++ d ++ " HTTP/1.0\r\n".toList =
      "GET".toList ++ ' ' :: (("/".toList ++ d) ++ ' ' :: "HTTP/1.0\r\n".toList) :=
    fun _ => rfl
  have h := hd deep_dir
  have hsp : ∀ c ∈ "/".toList ++ deep_dir, ¬ isspace c = true := by
    intro c hc
    rcases List.mem_append.1 hc with hc | hc
    · have : c = '/' := by simpa using hc
      rw [this]
      decide
    · rcases deep_dir_mem c hc with hc | hc <;> rw [hc] <;> decide
  unfold words
  rw [h, tokens_of_append_sep isspace _ _ ' ' (by decide) (by decide) (by decide),
    tokens_of_append_sep isspace _ _ ' ' (by simp) hsp (by decide)]
  have : tokens_of isspace "HTTP/1.0\r\n".toList = ["HTTP/1.0".toList] := by decide
  rw [this]

theorem deep_no_mark : '?' ∉ deep_dir := by
  intro hc
  rcases deep_dir_mem '?' hc with hc | hc <;> exact absurd hc (by decide)

theorem deep_sanitized : modify_argument ("/".toList ++ deep_dir) = deep_dir := by
  have hK : List.replicate 507 ".".toList ≠ [] := by
    intro h
    have hl := congrArg List.length h
    rw [List.length_replicate, List.length_nil] at hl
    exact absurd hl (by decide)
  have hk : kept_segments ("/".toList ++ deep_dir) = List.replicate 507 ".".toList := by
    have h1 : kept_segments ("/".toList ++ deep_dir) = kept_segments deep_dir := by
      unfold kept_segments
      rw [slash_toList, List.singleton_append, tokens_of_cons_sep _ '/' deep_dir (by decide)]
    rw [h1]
    unfold deep_dir
    apply kept_segments_intercalate _ hK
    · intro l hl
      rw [List.eq_of_mem_replicate hl]
      decide
    · intro l hl
      rw [List.eq_of_mem_replicate hl]
      decide
    · intro l hl
      rw [List.eq_of_mem_replicate hl]
      decide
  rw [modify_argument_eq, hk, if_neg hK]
  rfl

theorem parse_query_plain (s : Str) (h : '?' ∉ s) : parse_query s = (s, []) := by
  unfold parse_query
  rw [(strrchr_eq_none s '?').2 h]

theorem deep_path : dispatched_path ("/".toList ++ deep_dir) = deep_dir := by
  have hq : '?' ∉ "/".toList ++ deep_dir := by
    intro hc
    rcases List.mem_append.1 hc with hc | hc
    · exact absurd (List.mem_singleton.1 hc) (by decide)
    · exact deep_no_mark hc
  rw [dispatched_path_plain _ hq, deep_sanitized]

/-- The request for the long name of the root is short enough to be read whole, and
`process_rq` takes it as far as the buffer overrun in `do_dir`. -/
theorem deep_request_trace :
    ("GET /".toList ++ deep_dir ++ " HTTP/1.0\r\n".toList).length < MAX_RQ_LEN ∧
    process_rq deep_world ("GET /".toList ++ deep_dir ++ " HTTP/1.0\r\n".toList) =
      [Event.setenv "REQUEST_METHOD".toList "GET".toList,
       Event.stat deep_dir, Event.stat (deep_dir ++ "/".toList), Event.stat deep_dir,
       Event.call Handler.do_dir deep_dir, Event.undefined] := by
  have hlen : (deep_dir ++ "/".toList).length ≤ LINELEN - 1 := by
    rw [List.length_append, deep_dir_length]
    decide
  have hstat : deep_world.stat deep_dir = Except.ok ⟨0o040755, 4096, 0⟩ := by
    simp [deep_world]
  have hstat2 : deep_world.stat (deep_dir ++ "/".toList) = Except.ok ⟨0o040755, 4096, 0⟩ := by
    simp [deep_world]
  have h1 : not_exist deep_world deep_dir = (false, [Event.stat deep_dir]) := by
    unfold not_exist
    rw [hstat]
  have h2 : no_access deep_world deep_dir = (false, [Event.stat (deep_dir ++ "/".toList)]) := by
    unfold no_access
    simp only [List.take_of_length_le hlen]
    rw [hstat2]
    rfl
  have h3 : isadir deep_world deep_dir = (true, [Event.stat deep_dir]) := by
    unfold isadir
    rw [hstat]
    rfl
  have hbig : LINELEN ≤ deep_dir.length + "/index.html".toList.length := by
    rw [deep_dir_length]
    decide
  refine ⟨?_, ?_⟩
  · rw [List.length_append, List.length_append, deep_dir_length]
    decide
  · rw [process_rq_get_or_head deep_world _ "GET".toList ("/".toList ++ deep_dir)
        ["HTTP/1.0".toList] deep_words (Or.inl rfl),
      deep_path, deep_sanitized, parse_query_plain deep_dir deep_no_mark, h1, h2, h3,
      do_dir_overrun deep_world deep_dir hbig]
    rfl

/-- Claim C13, evaluated where it fails.  While `dir` followed by `/index.html` fits
the buffer of `LINELEN` bytes, `do_dir` does what the claim says: it hands
`dir/index.html` to `do_cat` whenever `stat` finds it, otherwise `dir/index.cgi` to
`do_exec` when `stat` finds that, and runs `do_ls` only when neither is found.  For a
longer `dir` the unchecked copy overruns the buffer and nothing of this is done; the
request for the root under its 1013 character name, which fits a request line, gets
there. -/
theorem index_lookup_until_overrun :
    (∀ (w : World) (dir : Str), dir.length + "/index.html".toList.length < LINELEN →
      (∀ info, w.stat (dir ++ "/index.html".toList) = Except.ok info →
        do_dir w dir =
          Event.call Handler.do_dir dir :: Event.stat (dir ++ "/index.html".toList) ::
            do_cat w (dir ++ "/index.html".toList)) ∧
      (∀ errno info, w.stat (dir ++ "/index.html".toList) = Except.error errno →
        w.stat (dir ++ "/index.cgi".toList) = Except.ok info →
        do_dir w dir =
          Event.call Handler.do_dir dir :: Event.stat (dir ++ "/index.html".toList) ::
            Event.stat (dir ++ "/index.cgi".toList) ::
            do_exec w (dir ++ "/index.cgi".toList)) ∧
      (∀ errno errno', w.stat (dir ++ "/index.html".toList) = Except.error errno →
        w.stat (dir ++ "/index.cgi".toList) = Except.error errno' →
        do_dir w dir =
          Event.call Handler.do_dir dir :: Event.stat (dir ++ "/index.html".toList) ::
            Event.stat (dir ++ "/index.cgi".toList) :: do_ls w dir)) ∧
    (∀ (w : World) (dir : Str), LINELEN ≤ dir.length + "/index.html".toList.length →
      do_dir w dir = [Event.call Handler.do_dir dir, Event.undefined]) ∧
    deep_dir.length = 1013 ∧
    ("GET /".toList ++ deep_dir ++ " HTTP/1.0\r\n".toList).length < MAX_RQ_LEN ∧
    process_rq deep_world ("GET /".toList ++ deep_dir ++ " HTTP/1.0\r\n".toList) =
      [Event.setenv "REQUEST_METHOD".toList "GET".toList,
       Event.stat deep_dir, Event.stat (deep_dir ++ "/".toList), Event.stat deep_dir,
       Event.call Handler.do_dir deep_dir, Event.undefined] :=
  ⟨fun w dir hfit =>
      ⟨fun info h => do_dir_html w dir info hfit h,
       fun errno info h h' => do_dir_cgi w dir errno info hfit h h',
       fun errno errno' h h' => do_dir_listing w dir errno errno' hfit h h'⟩,
    do_dir_overrun, deep_dir_length, deep_request_trace.1, deep_request_trace.2⟩

/-- Claim C13 within the buffer, on the directory `pub` holding both index files:
`index.html` is served and `index.cgi` is not looked at. -/
theorem index_lookup_until_overrun_witness :
    index_world.stat "pub/index.html".toList = Except.ok ⟨0o100644, 4, 0⟩ ∧
    index_world.stat "pub/index.cgi".toList = Except.ok ⟨0o100755, 9, 0⟩ ∧
    do_dir index_world "pub".toList =
      Event.call Handler.do_dir "pub".toList ::
        Event.stat ("pub".toList ++ "/index.html".toList) ::
        do_cat index_world ("pub".toList ++ "/index.html".toList) ∧
    output (do_dir index_world "pub".toList) =
      ("HTTP/1.0 200 OK\r\nDate: Thu, 01 Jan 1970 00:00:00 GMT\r\n".toList ++
       "Server: WSNG/1\r\nContent-Type: text/html\r\n\r\nhome".toList) :=
  ⟨rfl, rfl,
    (index_lookup_until_overrun.1 index_world "pub".toList (by decide)).1 _ rfl,
    by decide⟩

end Wsng
